import Mathlib

/-!
Verification development for the SearchInk catalog-search repository.

The client pipeline in `src/client/src/pages/search.tsx` is embedded
shallowly: records and results are structures, the `results` memo is a
pure function over a record collection and a query configuration, the
JavaScript in-place stable `Array.prototype.sort` is modelled by
`List.mergeSort` (stable and sorted, which characterises it uniquely for
a total comparator), and `Array.prototype.slice` keeps its clamping
semantics.  The third-party fuzzy-search library (Fuse.js) is not part
of the repository sources, so the approximate matcher and field scorer
are modelled from the specification where a claim needs them; the
pipeline itself is parameterised by the search function it calls.
-/

namespace SearchInk

/-- A searchable catalog entry, after the shape validated by
`searchItemSchema` (shared schema file) and used in `SAMPLE_DATA`. -/
structure Item where
  id : Nat
  title : String
  description : String
  tags : List String
  date : String
deriving DecidableEq, Repr

/-- One entry of the result list: the record, the optional per-field match
index pairs reported by the search library, and the optional score
(both absent on the empty-query passthrough path).  Mirrors the
`SearchResult` interface of `search.tsx`. -/
structure SearchResult where
  item : Item
  «matches» : Option (List (String × List (Nat × Nat)))
  score : Option ℚ
deriving DecidableEq, Repr

/-- The three values of the `sortBy` select. -/
inductive SortBy
  | relevance
  | newest
  | oldest
deriving DecidableEq, Repr

/-- The hard-coded record collection of `search.tsx` (`SAMPLE_DATA`). -/
def SAMPLE_DATA : List Item :=
  [ ⟨1, "Coffee Culture: A Short History", "Explore coffee shops, origins and rituals across the world.", ["coffee", "culture", "history"], "2024-12-02"⟩,
    ⟨2, "Metaverse UX Patterns", "Design principles for immersive experiences and social spaces.", ["ux", "metaverse", "design"], "2025-03-10"⟩,
    ⟨3, "AI for Creators", "How small creators leverage AI to scale content workflow.", ["ai", "creators", "productivity"], "2024-09-30"⟩,
    ⟨4, "Street Food Guide", "A lovingly curated guide to the best street food in your city.", ["food", "guide", "local"], "2023-05-20"⟩,
    ⟨5, "Photography: Light & Mood", "Techniques to capture mood using natural and artificial light.", ["photography", "camera", "light"], "2025-01-15"⟩,
    ⟨6, "Cryptic Puzzles", "A book of puzzles to stretch your mind and patience.", ["puzzles", "games", "brain"], "2022-11-01"⟩,
    ⟨7, "Sustainable Architecture", "Design strategies that prioritize ecology and people.", ["architecture", "sustainability"], "2024-06-14"⟩,
    ⟨8, "Guide to Freelancing", "Practical advice for building a freelance career online.", ["freelance", "career", "guide"], "2025-02-21"⟩,
    ⟨9, "Gardening in Small Spaces", "How to grow a thriving garden on balconies and windowsills.", ["gardening", "home", "plants"], "2023-07-09"⟩,
    ⟨10, "Beginner\'s Guide to JavaScript", "Learn modern JavaScript fundamentals with hands-on examples.", ["javascript", "programming", "guide"], "2025-04-02"⟩ ]

/-- The record with title `Beginner's Guide to JavaScript` (id 10). -/
def jsRecord : Item :=
  ⟨10, "Beginner\'s Guide to JavaScript", "Learn modern JavaScript fundamentals with hands-on examples.", ["javascript", "programming", "guide"], "2025-04-02"⟩

/-! ### highlightText (search.tsx lines 27-53)

The React nodes produced by `highlightText` are modelled as a list of
`Part`s: a `plain` node for a `text.slice(...)` string pushed directly,
a `highlight` node for a `<span class="search-highlight">` element.
Strings are represented by their character lists. -/

inductive Part
  | plain (s : List Char)
  | highlight (s : List Char)
deriving DecidableEq, Repr

/-- `text.slice(s, e)` of JavaScript on character lists (clamping, and the
empty string when `e ≤ s`). -/
def jsSlice (text : List Char) (s e : Nat) : List Char :=
  (text.drop s).take (e - s)

/-- `indices.map(([start, end]) => ({ start, end: end + 1 }))`. -/
def closeRanges (indices : List (Nat × Nat)) : List (Nat × Nat) :=
  indices.map fun p => (p.1, p.2 + 1)

/-- `ranges.sort((a, b) => a.start - b.start)` — a stable sort by
ascending start offset. -/
def sortRanges (rs : List (Nat × Nat)) : List (Nat × Nat) :=
  rs.mergeSort fun a b => a.1 ≤ b.1

/-- The `ranges.forEach` loop plus the trailing push of
`text.slice(lastIndex)`; `lastIndex` is the second argument. -/
def renderRanges (text : List Char) : List (Nat × Nat) → Nat → List Part
  | [], lastIndex =>
      if lastIndex < text.length then [Part.plain (text.drop lastIndex)] else []
  | (s, e) :: rest, lastIndex =>
      (if lastIndex < s then [Part.plain (jsSlice text lastIndex s)] else []) ++
        Part.highlight (jsSlice text s e) :: renderRanges text rest e

/-- `highlightText(text, indices)` of search.tsx.  With no indices the raw
text is returned as a single plain node. -/
def highlightText (text : List Char) (indices : List (Nat × Nat)) : List Part :=
  if indices.isEmpty then [Part.plain text]
  else renderRanges text (sortRanges (closeRanges indices)) 0

/-- The characters of one rendered part. -/
def partChars : Part → List Char
  | .plain s => s
  | .highlight s => s

/-- Concatenation of everything `highlightText` renders, in order. -/
def partsText (ps : List Part) : List Char :=
  (ps.map partChars).flatten

/-- The highlighted parts, in render order. -/
def highlightParts (ps : List Part) : List (List Char) :=
  ps.filterMap fun p =>
    match p with
    | .highlight s => some s
    | .plain _ => none

/-! ### The results pipeline (search.tsx lines 77-106) -/

/-- The empty-query wrapping `SAMPLE_DATA.map((item) => ({ item }))`. -/
def passthrough (it : Item) : SearchResult := ⟨it, none, none⟩

/-- `s.trim()` of JavaScript: the string with whitespace stripped from
both ends. -/
def jsTrim (s : String) : String :=
  String.mk (((s.data.dropWhile Char.isWhitespace).reverse.dropWhile
    Char.isWhitespace).reverse)

/-- The query branch of the `results` memo: call the search function on a
non-blank query, otherwise wrap every record unscored.  The search
function (`fuse.search` plus the result mapping) is a parameter, since
Fuse.js is an external library. -/
def searchStage (fuse : String → List SearchResult) (records : List Item)
    (query : String) : List SearchResult :=
  if jsTrim query ≠ "" then fuse query else records.map passthrough

/-- `filtered.filter((result) => result.item.tags.includes(activeTag))`,
applied only when a tag is active. -/
def filterStage (activeTag : Option String) (l : List SearchResult) :
    List SearchResult :=
  match activeTag with
  | some tag => l.filter fun r => r.item.tags.contains tag
  | none => l

/-- Numeric key of `new Date(dateString).getTime()` for the ISO
`YYYY-MM-DD` strings this catalog uses: the digits of the string read as
one number (`YYYYMMDD`), which is order-isomorphic to the timestamp on
such strings and equal on equal strings. -/
def dateKey (s : String) : Nat :=
  s.data.foldl (fun acc c => if c.isDigit then acc * 10 + (c.toNat - 48) else acc) 0

/-- The comparator `(a, b) => time(b) - time(a)` (descending by date):
`a` may stay before `b` exactly when the comparator is non-positive. -/
def newestLE (a b : SearchResult) : Bool :=
  dateKey b.item.date ≤ dateKey a.item.date

/-- The comparator `(a, b) => time(a) - time(b)` (ascending by date). -/
def oldestLE (a b : SearchResult) : Bool :=
  dateKey a.item.date ≤ dateKey b.item.date

/-- The in-place `filtered.sort(...)` on the two date modes; no sort runs
for relevance.  `Array.prototype.sort` is stable and sorts ascending by
the comparator, which `List.mergeSort` models exactly. -/
def sortStage (sb : SortBy) (l : List SearchResult) : List SearchResult :=
  match sb with
  | SortBy.relevance => l
  | SortBy.newest => l.mergeSort newestLE
  | SortBy.oldest => l.mergeSort oldestLE

/-- The `results` memo of `SearchPage`: query branch, tag filter, sort. -/
def results (fuse : String → List SearchResult) (records : List Item)
    (query : String) (activeTag : Option String) (sb : SortBy) :
    List SearchResult :=
  sortStage sb (filterStage activeTag (searchStage fuse records query))

/-- The displayed result count (`results.length`, line 174), read from the
pre-pagination list. -/
def totalCount (res : List SearchResult) : Nat := res.length

/-- `results.slice(0, perPage)` with JavaScript `slice` semantics: a
negative end counts from the end of the list, clamped at zero. -/
def paginatedResults (res : List SearchResult) (perPage : Int) :
    List SearchResult :=
  if perPage < 0 then res.take ((res.length : Int) + perPage).toNat
  else res.take perPage.toNat

/-- The tag-filter predicate on a record, as the claims state it. -/
def tagPass (activeTag : Option String) (it : Item) : Bool :=
  match activeTag with
  | some tag => it.tags.contains tag
  | none => true

/-! ### The suggestion path (search.tsx lines 118-143, `handleQueryChange`) -/

/-- Worker for splitting on `/\s+/`: `acc` holds the current token
reversed, the flag records whether the previous character was
whitespace (a run being skipped). -/
def splitWsGo : List Char → List Char → Bool → List (List Char)
  | [], acc, _ => [acc.reverse]
  | c :: cs, acc, inWs =>
      if c.isWhitespace then
        if inWs then splitWsGo cs [] true
        else acc.reverse :: splitWsGo cs [] true
      else splitWsGo cs (c :: acc) false

/-- `title.split(/\s+/)` of JavaScript: tokens between maximal whitespace
runs, with an empty token at an end that touches whitespace. -/
def jsSplitWs (s : String) : List String :=
  (splitWsGo s.data [] false).map fun cs => String.mk cs

/-- `s.toLowerCase()` (ASCII folding, which the catalog data needs). -/
def toLowerStr (s : String) : String :=
  String.mk (s.data.map Char.toLower)

/-- Substring test `needle ⊑ hay` on character lists, the semantics of
JavaScript `String.prototype.includes`. -/
def isSubstr : List Char → List Char → Bool
  | needle, [] => needle.isEmpty
  | needle, hay@(_ :: t) => needle.isPrefixOf hay || isSubstr needle t

/-- `hay.toLowerCase().includes(value.toLowerCase())`. -/
def includesCI (hay value : String) : Bool :=
  isSubstr (toLowerStr value).data (toLowerStr hay).data

/-- `tokens.add(t)` on an insertion-ordered set represented as a
duplicate-free list. -/
def insertTok (l : List String) (t : String) : List String :=
  if t ∈ l then l else l ++ [t]

/-- The token-collection loop of `handleQueryChange`: for every record,
its title words (split on whitespace) and then its tags are added when
their lowercase form contains the lowercase query value. -/
def suggTokens (records : List Item) (value : String) : List String :=
  records.foldl
    (fun acc it =>
      let acc1 := (jsSplitWs it.title).foldl
        (fun a w => if includesCI w value then insertTok a w else a) acc
      it.tags.foldl
        (fun a tg => if includesCI tg value then insertTok a tg else a) acc1)
    []

/-- `handleQueryChange` state updates: the suggestion list
(`Array.from(tokens).slice(0, 8)`) and the `showSuggestions` flag
(`tokens.size > 0`); both empty/false when the trimmed value is shorter
than 2 characters. -/
def handleQueryChange (records : List Item) (value : String) :
    List String × Bool :=
  if (jsTrim value).length < 2 then ([], false)
  else
    let tokens := suggTokens records value
    (tokens.take 8, 0 < tokens.length)

/-- The suggestion list shown under the input. -/
def suggestions (records : List Item) (value : String) : List String :=
  (handleQueryChange records value).1

/-- The tokens of all records that match the query, flattened in
encounter order (title words before tags, records in collection
order), before deduplication. -/
def matchStream (records : List Item) (value : String) : List String :=
  records.flatMap fun it =>
    (jsSplitWs it.title ++ it.tags).filter fun t => includesCI t value

/-- Keep the first occurrence of every string, dropping later
duplicates; `seen` is the set of strings already emitted. -/
def dedupFirstGo (seen : List String) : List String → List String
  | [] => []
  | x :: xs =>
      if x ∈ seen then dedupFirstGo seen xs
      else x :: dedupFirstGo (x :: seen) xs

/-- First-occurrence deduplication. -/
def dedupFirst (l : List String) : List String := dedupFirstGo [] l

/-! ### Approximate matcher and scorer, modelled from the spec

The repository delegates fuzzy matching to the external Fuse.js library
(`new Fuse(SAMPLE_DATA, { threshold: 0.36, keys: [title 0.6, tags 0.25,
description 0.15], minMatchCharLength: 2 })`); the library itself is not
among the sources.  The definitions below are therefore modelled from
the specification, not from library code. -/

/-- Modelled from the spec: one row of the Sellers dynamic program for
approximate substring matching with the restricted Damerau-Levenshtein
edit operations (substitution, insertion, deletion, transposition).
`prev` is row `i - 1`, `prevprev` row `i - 2`; entry `j` of row `i` is
the least cost of matching the first `i` pattern characters against a
window of the text ending at position `j`. -/
def dlNextRow (pat text : List Char) (i : Nat) (prevprev prev : List Nat) :
    List Nat :=
  ((List.range (text.length + 1)).foldl
    (fun row j =>
      if j = 0 then [i]
      else
        let left := row.headD 0
        let diag := prev.getD (j - 1) 0
        let above := prev.getD j 0
        let cost : Nat := if pat.getD (i - 1) ' ' = text.getD (j - 1) ' ' then 0 else 1
        let base := min (diag + cost) (min (above + 1) (left + 1))
        let best :=
          if 2 ≤ i ∧ 2 ≤ j ∧ pat.getD (i - 1) ' ' = text.getD (j - 2) ' ' ∧
              pat.getD (i - 2) ' ' = text.getD (j - 1) ' ' then
            min base (prevprev.getD (j - 2) 0 + 1)
          else base
        best :: row)
    []).reverse

/-- Modelled from the spec: the final row of the dynamic program, with a
free start (row zero is all zeros, so a match may begin anywhere in the
text). -/
def dlLastRow (pat text : List Char) : List Nat :=
  ((List.range pat.length).foldl
    (fun state i => (state.2, dlNextRow pat text (i + 1) state.1 state.2))
    (([] : List Nat), List.replicate (text.length + 1) 0)).2

/-- Modelled from the spec: the least restricted Damerau-Levenshtein
distance between the pattern and any substring of the text (free start
and free end). -/
def approxSubstringDist (pat text : List Char) : Nat :=
  ((dlLastRow pat text).min?).getD pat.length

/-- Modelled from the spec: the matcher distance after case folding. -/
def fieldDist (query text : String) : Nat :=
  approxSubstringDist (toLowerStr query).data (toLowerStr text).data

/-- Modelled from the spec: a field matches when at most ~36% of the
query's characters differ — the configured `threshold: 0.36`. -/
def fieldMatches (query text : String) : Bool :=
  100 * fieldDist query text ≤ 36 * query.length

/-- Modelled from the spec: the per-field cost in `[0, 1]`, distance
normalised by query length; `none` when the field is rejected. -/
def fieldCost (query text : String) : Option ℚ :=
  if fieldMatches query text then
    some ((fieldDist query text : ℚ) / (query.length : ℚ))
  else none

/-- Modelled from the spec: tags are matched as a set — the best
(lowest-cost) tag match wins. -/
def tagsCost (query : String) (tags : List String) : Option ℚ :=
  (tags.filterMap fun tg => fieldCost query tg).min?

/-- Modelled from the spec: weighted sum of field costs (title 0.6, tags
0.25, description 0.15), a non-matching field contributing a full-weight
penalty of cost 1, clamped to `[0, 1]`; a record with no matching field
is excluded (`none`). -/
def recordScore (query : String) (it : Item) : Option ℚ :=
  let t := fieldCost query it.title
  let g := tagsCost query it.tags
  let d := fieldCost query it.description
  if t = none ∧ g = none ∧ d = none then none
  else
    some (min 1 ((6 / 10 : ℚ) * t.getD 1 + (25 / 100 : ℚ) * g.getD 1 +
      (15 / 100 : ℚ) * d.getD 1))

/-- Modelled from the spec: the full search call — score every record,
drop the non-matching ones, sort ascending by score (best first).  The
match spans Fuse.js would also report are omitted here: no claim settled
against this model concerns their values. -/
def specFuse (records : List Item) (query : String) : List SearchResult :=
  (((records.filterMap fun it => (recordScore query it).map fun s => (it, s))).mergeSort
      fun a b => a.2 ≤ b.2).map
    fun p => ⟨p.1, none, some p.2⟩

/-! ### Array-identity model for the frame claim

JavaScript `sort` mutates the array it is called on.  To state that the
record collection itself is never mutated, arrays get identities: a heap
of array cells addressed by index.  `Array.prototype.map` and `filter`
allocate fresh cells; `sort` overwrites the cell it is applied to. -/

inductive ArrVal
  | items (l : List Item)
  | res (l : List SearchResult)
deriving DecidableEq, Repr

/-- A heap of array cells; references are indices into the list. -/
abbrev Heap := List ArrVal

/-- Allocate a fresh array cell, returning the updated heap and the new
reference. -/
def alloc (h : Heap) (v : ArrVal) : Heap × Nat := (h ++ [v], h.length)

/-- Read a record-array cell. -/
def getItems (h : Heap) (r : Nat) : List Item :=
  match h.getD r (ArrVal.items []) with
  | .items l => l
  | .res _ => []

/-- Read a result-array cell. -/
def getRes (h : Heap) (r : Nat) : List SearchResult :=
  match h.getD r (ArrVal.res []) with
  | .res l => l
  | .items _ => []

/-- The `results` memo with array identities.  `let filtered =
SAMPLE_DATA` first aliases the record collection, but both branches of
the query test rebind `filtered` to a freshly allocated array (the
mapped search output, or the passthrough map) before anything writes;
the tag filter allocates again; the in-place `sort` then overwrites the
cell `filtered` points to.  Returns the heap and the reference holding
the result list. -/
def resultsHeap (fuse : String → List SearchResult) (query : String)
    (activeTag : Option String) (sb : SortBy) (h : Heap)
    (recordsRef : Nat) : Heap × Nat :=
  let fref0 := recordsRef
  let step1 :=
    if jsTrim query ≠ "" then alloc h (ArrVal.res (fuse query))
    else alloc h (ArrVal.res ((getItems h fref0).map passthrough))
  let h1 := step1.1
  let fref1 := step1.2
  let step2 :=
    match activeTag with
    | some tag =>
        alloc h1 (ArrVal.res ((getRes h1 fref1).filter fun r =>
          r.item.tags.contains tag))
    | none => (h1, fref1)
  let h2 := step2.1
  let fref2 := step2.2
  let h3 :=
    match sb with
    | SortBy.relevance => h2
    | SortBy.newest =>
        h2.set fref2 (ArrVal.res ((getRes h2 fref2).mergeSort newestLE))
    | SortBy.oldest =>
        h2.set fref2 (ArrVal.res ((getRes h2 fref2).mergeSort oldestLE))
  (h3, fref2)

/-- A search function that finds nothing; used to instantiate the
pipeline's library parameter in witnesses. -/
def emptyFuse : String → List SearchResult := fun _ => []

/-- A record whose only tag is `Guide` (capital G), for the
case-sensitivity scenario of the tag filter. -/
def guideItem : Item := ⟨201, "Some Guide", "", ["Guide"], "2024-01-01"⟩

/-- First record of a date-tie pair: its title matches the query `abcd`
only approximately. -/
def tieA : Item := ⟨101, "xabc", "", [], "2024-01-01"⟩

/-- Second record of the date-tie pair: its title matches the query
`abcd` exactly, so it scores strictly better than `tieA`. -/
def tieB : Item := ⟨102, "abcd", "", [], "2024-01-01"⟩

/-- Two inclusive index pairs are non-overlapping after closing each to
the half-open range `[start, end + 1)`. -/
def spansDisjoint (a b : Nat × Nat) : Prop :=
  a.2 + 1 ≤ b.1 ∨ b.2 + 1 ≤ a.1

instance : DecidableRel spansDisjoint := fun a b =>
  inferInstanceAs (Decidable (a.2 + 1 ≤ b.1 ∨ b.2 + 1 ≤ a.1))

/-- A range list is separated starting from `lo`: each range starts no
earlier than the previous one ends, ranges are well-formed, and the
first starts at or after `lo`. -/
def sortedSepB : Nat → List (Nat × Nat) → Bool
  | _, [] => true
  | lo, (s, e) :: rest => lo ≤ s && s ≤ e && sortedSepB e rest

end SearchInk

namespace SearchInk

/-! ### Rendering lemmas for highlightText -/

theorem slice_drop (text : List Char) {l s : Nat} (h : l ≤ s) :
    jsSlice text l s ++ text.drop s = text.drop l := by
  have hdrop : text.drop s = (text.drop l).drop (s - l) := by
    rw [List.drop_drop]
    congr 1
    omega
  rw [jsSlice, hdrop, List.take_append_drop]

theorem partsText_append (ps qs : List Part) :
    partsText (ps ++ qs) = partsText ps ++ partsText qs := by
  simp [partsText]

theorem partsText_renderRanges (text : List Char) :
    ∀ (rs : List (Nat × Nat)) (lastIndex : Nat),
      sortedSepB lastIndex rs = true →
      partsText (renderRanges text rs lastIndex) = text.drop lastIndex := by
  intro rs
  induction rs with
  | nil =>
      intro lastIndex _
      rw [renderRanges]
      split
      · simp [partsText, partChars]
      · rw [List.drop_eq_nil_of_le (by omega)]
        simp [partsText]
  | cons r rest ih =>
      intro lastIndex hsep
      obtain ⟨s, e⟩ := r
      simp only [sortedSepB, Bool.and_eq_true, decide_eq_true_eq] at hsep
      obtain ⟨⟨hls, hse⟩, hrest⟩ := hsep
      rw [renderRanges, partsText_append]
      have hgap : partsText (if lastIndex < s then
          [Part.plain (jsSlice text lastIndex s)] else []) =
          jsSlice text lastIndex s := by
        split
        · simp [partsText, partChars]
        · have : lastIndex = s := by omega
          subst this
          simp [partsText, jsSlice]
      rw [hgap]
      have htail : partsText (Part.highlight (jsSlice text s e) ::
          renderRanges text rest e) =
          jsSlice text s e ++ partsText (renderRanges text rest e) := by
        simp [partsText, partChars]
      rw [htail, ih e hrest, slice_drop text hse, slice_drop text hls]

theorem highlightParts_renderRanges (text : List Char) :
    ∀ (rs : List (Nat × Nat)) (lastIndex : Nat),
      highlightParts (renderRanges text rs lastIndex) =
        rs.map fun r => jsSlice text r.1 r.2 := by
  intro rs
  induction rs with
  | nil =>
      intro lastIndex
      rw [renderRanges]
      split <;> simp [highlightParts]
  | cons r rest ih =>
      intro lastIndex
      obtain ⟨s, e⟩ := r
      rw [renderRanges]
      simp only [highlightParts, List.filterMap_append, List.filterMap_cons]
      rw [show (List.filterMap (fun p =>
          match p with
          | Part.highlight s => some s
          | Part.plain _ => none)
          (if lastIndex < s then [Part.plain (jsSlice text lastIndex s)] else []) :
          List (List Char)) = [] by split <;> simp]
      simpa [highlightParts] using ih e

theorem sortedSepB_of_sorted :
    ∀ (rs : List (Nat × Nat)) (lo : Nat),
      rs.Pairwise (fun a b => a.1 ≤ b.1) →
      rs.Pairwise (fun a b => a.2 ≤ b.1 ∨ b.2 ≤ a.1) →
      (∀ r ∈ rs, r.1 < r.2) →
      (∀ r ∈ rs, lo ≤ r.1) →
      sortedSepB lo rs = true := by
  intro rs
  induction rs with
  | nil => intro lo _ _ _ _; rfl
  | cons r rest ih =>
      intro lo hsort hdisj hne hlo
      obtain ⟨s, e⟩ := r
      rw [List.pairwise_cons] at hsort hdisj
      simp only [sortedSepB, Bool.and_eq_true, decide_eq_true_eq]
      refine ⟨⟨hlo _ (List.mem_cons_self _ _), Nat.le_of_lt (hne _ (List.mem_cons_self _ _))⟩, ?_⟩
      refine ih e hsort.2 hdisj.2 (fun q hq => hne q (List.mem_cons_of_mem _ hq)) ?_
      intro q hq
      rcases hdisj.1 q hq with h | h
      · exact h
      · have h1 := hsort.1 q hq
        have h2 := hne q (List.mem_cons_of_mem _ hq)
        omega

theorem highlightParts_highlightText (text : List Char)
    (indices : List (Nat × Nat)) :
    highlightParts (highlightText text indices) =
      (sortRanges (closeRanges indices)).map fun r => jsSlice text r.1 r.2 := by
  rw [highlightText]
  split
  · rename_i h
    rw [List.isEmpty_iff] at h
    subst h
    simp [closeRanges, sortRanges, highlightParts]
  · exact highlightParts_renderRanges text _ 0

theorem sortRanges_trans (a b c : Nat × Nat) :
    (a.1 ≤ b.1 : Bool) → (b.1 ≤ c.1 : Bool) → (a.1 ≤ c.1 : Bool) := by
  simp only [decide_eq_true_eq]
  omega

theorem sortRanges_total (a b : Nat × Nat) :
    ((a.1 ≤ b.1 : Bool) || (b.1 ≤ a.1 : Bool)) = true := by
  simp only [Bool.or_eq_true, decide_eq_true_eq]
  omega

theorem sortedSepB_sortRanges (indices : List (Nat × Nat))
    (hwf : ∀ p ∈ indices, p.1 ≤ p.2)
    (hdisj : indices.Pairwise spansDisjoint) :
    sortedSepB 0 (sortRanges (closeRanges indices)) = true := by
  apply sortedSepB_of_sorted
  · exact (List.sorted_mergeSort sortRanges_trans sortRanges_total
      (closeRanges indices)).imp (by simp)
  · have hm : (closeRanges indices).Pairwise fun a b => a.2 ≤ b.1 ∨ b.2 ≤ a.1 := by
      rw [closeRanges, List.pairwise_map]
      exact hdisj.imp fun h => h
    exact ((List.mergeSort_perm (closeRanges indices) _).pairwise_iff
      (fun h => h.symm)).2 hm
  · intro r hr
    rw [sortRanges, List.mem_mergeSort, closeRanges, List.mem_map] at hr
    obtain ⟨p, hp, rfl⟩ := hr
    have := hwf p hp
    omega
  · intro r _
    exact Nat.zero_le _

/-- C2 counterexample: for the overlapping spans `[2,5)` and `[4,8)` of
the claim's own example (index pairs `(2,4)` and `(4,7)`), the rendered
highlight parts of `highlightText` on the text `abcdefghij` are the two
unmerged overlapping slices `cde` and `efgh` — character `e` is emitted
twice — not the single merged span `cdefgh` the claim requires. -/
theorem C2_counterexample :
    highlightParts (highlightText "abcdefghij".data [(2, 4), (4, 7)]) =
      ["cde".data, "efgh".data] ∧
    ["cde".data, "efgh".data] ≠ ["cdefgh".data] := by
  refine ⟨?_, by decide⟩
  simp [highlightText, sortRanges, closeRanges, List.mergeSort, List.merge,
    renderRanges, jsSlice, highlightParts]

/-- C2 (amended): `highlightText` sorts each field's spans by ascending
start offset but does not merge them — every input span is exposed as
its own highlight part, the slice `text[start, end + 1)`, so overlapping
or adjacent spans remain separate parts (overlapping spans duplicate the
overlapped characters), and the exposed spans are pairwise disjoint only
when the input spans already are. -/
theorem C2_spans_sorted_not_merged (text : List Char)
    (indices : List (Nat × Nat)) :
    highlightParts (highlightText text indices) =
      (sortRanges (closeRanges indices)).map fun r => jsSlice text r.1 r.2 :=
  highlightParts_highlightText text indices

/-- C10 counterexample: the degenerate index pair `(5, 3)` (start above
end) satisfies the claim's pairwise non-overlap hypothesis vacuously,
yet on the text `abcdef` the concatenation of the produced parts is
`abcdeef` — character `e` is duplicated — not the original text. -/
theorem C10_counterexample :
    List.Pairwise spansDisjoint [((5 : Nat), (3 : Nat))] ∧
    partsText (highlightText "abcdef".data [(5, 3)]) = "abcdeef".data ∧
    "abcdeef".data ≠ "abcdef".data := by
  refine ⟨by decide, ?_, by decide⟩
  simp [highlightText, sortRanges, closeRanges, List.mergeSort, List.merge,
    renderRanges, jsSlice, partsText, partChars]

/-- C10 (amended): for every text and every list of highlight index
pairs `[start, end]` with `start ≤ end` that are pairwise
non-overlapping after closing each pair to `[start, end + 1)`,
`highlightText` produces parts whose concatenation is exactly the
original text — no character dropped or duplicated — and each
highlighted part equals the slice `text[start, end + 1)` of its pair. -/
theorem C10_concat_exact (text : List Char) (indices : List (Nat × Nat))
    (hwf : ∀ p ∈ indices, p.1 ≤ p.2)
    (hdisj : indices.Pairwise spansDisjoint) :
    partsText (highlightText text indices) = text ∧
    highlightParts (highlightText text indices) =
      (sortRanges (closeRanges indices)).map fun r => jsSlice text r.1 r.2 := by
  refine ⟨?_, highlightParts_highlightText text indices⟩
  rw [highlightText]
  split
  · simp [partsText, partChars]
  · rw [partsText_renderRanges text _ 0 (sortedSepB_sortRanges indices hwf hdisj)]
    rfl

/-! ### Pipeline claims -/

/-- C3 counterexample: with `pageSize = 0` the code returns the empty
result page, and with `pageSize = -1` it returns all but the last
result (JavaScript `slice` semantics) — in neither case is an
`InvalidConfiguration` error raised; pagination is a total function
producing a page. -/
theorem C3_counterexample :
    paginatedResults ((SAMPLE_DATA.take 3).map passthrough) 0 = [] ∧
    paginatedResults ((SAMPLE_DATA.take 3).map passthrough) (-1) =
      (SAMPLE_DATA.take 2).map passthrough := by
  exact ⟨by decide, by decide⟩

/-- C3 (amended): for every `pageSize ≤ 0` the search raises no error
and instead silently returns `results.slice(0, pageSize)`: always a
prefix of the result list — the empty page when `pageSize = 0`, and the
first `totalCount + pageSize` entries (clamped at zero) when `pageSize`
is negative. -/
theorem C3_nonpositive_pageSize_silent (res : List SearchResult) (n : Int)
    (h : n ≤ 0) :
    (∃ t, paginatedResults res n ++ t = res) ∧
    (n = 0 → paginatedResults res n = []) ∧
    (n < 0 → paginatedResults res n = res.take ((res.length : Int) + n).toNat) := by
  refine ⟨?_, ?_, ?_⟩
  · rw [paginatedResults]
    split
    · exact ⟨_, List.take_append_drop _ _⟩
    · exact ⟨_, List.take_append_drop _ _⟩
  · intro h0
    subst h0
    simp [paginatedResults]
  · intro hneg
    rw [paginatedResults, if_pos hneg]

/-- Witness for C3 (amended) at `pageSize = -2` on three passthrough
results. -/
theorem C3_witness :
    (∃ t, paginatedResults ((SAMPLE_DATA.take 3).map passthrough) (-2) ++ t =
      (SAMPLE_DATA.take 3).map passthrough) ∧
    ((-2 : Int) = 0 →
      paginatedResults ((SAMPLE_DATA.take 3).map passthrough) (-2) = []) ∧
    ((-2 : Int) < 0 →
      paginatedResults ((SAMPLE_DATA.take 3).map passthrough) (-2) =
        ((SAMPLE_DATA.take 3).map passthrough).take
          (((((SAMPLE_DATA.take 3).map passthrough).length : Int) + -2).toNat)) :=
  C3_nonpositive_pageSize_silent ((SAMPLE_DATA.take 3).map passthrough) (-2)
    (by decide)

/-- C4: for every query whose text trims to the empty string, the
pipeline returns every record as an unscored passthrough (no score, no
match spans), in original collection order, subject only to the tag
filter; under `sortBy = relevance` no sorting happens. -/
theorem C4_empty_query_passthrough (fuse : String → List SearchResult)
    (records : List Item) (query : String) (activeTag : Option String)
    (h : jsTrim query = "") :
    results fuse records query activeTag SortBy.relevance =
      (records.filter fun it => tagPass activeTag it).map passthrough ∧
    ∀ r ∈ results fuse records query activeTag SortBy.relevance,
      r.score = none ∧ r.«matches» = none := by
  have hmain : results fuse records query activeTag SortBy.relevance =
      (records.filter fun it => tagPass activeTag it).map passthrough := by
    rw [results, searchStage, if_neg (by simp [h])]
    cases activeTag with
    | none => simp [filterStage, sortStage, tagPass]
    | some tag =>
        simp only [filterStage, sortStage, tagPass]
        rw [List.filter_map]
        rfl
  refine ⟨hmain, ?_⟩
  intro r hr
  rw [hmain, List.mem_map] at hr
  obtain ⟨it, _, rfl⟩ := hr
  exact ⟨rfl, rfl⟩

/-- Witness for C4 on a whitespace-only query over the sample records
with no active tag. -/
theorem C4_witness :
    (results emptyFuse (SAMPLE_DATA.take 2) "  " none SortBy.relevance =
      ((SAMPLE_DATA.take 2).filter fun it => tagPass none it).map passthrough) ∧
    ∀ r ∈ results emptyFuse (SAMPLE_DATA.take 2) "  " none SortBy.relevance,
      r.score = none ∧ r.«matches» = none :=
  C4_empty_query_passthrough emptyFuse (SAMPLE_DATA.take 2) "  " none rfl

/-- C6: with an active tag, exactly those results whose record's tag
list contains the literal tag string pass the filter stage (membership
in the final result list is equivalent to membership in the search
stage output plus exact tag containment, the sort stages being
permutations); and concretely a record whose only tag is `Guide` is not
returned when the active tag is `guide` — the comparison is exact and
case-sensitive. -/
theorem C6_tag_filter_exact :
    (∀ (fuse : String → List SearchResult) (records : List Item)
        (query : String) (tag : String) (sb : SortBy) (r : SearchResult),
        r ∈ results fuse records query (some tag) sb ↔
          r ∈ searchStage fuse records query ∧ r.item.tags.contains tag = true) ∧
    results emptyFuse [guideItem] "" (some "guide") SortBy.relevance = [] := by
  constructor
  · intro fuse records query tag sb r
    rw [results]
    have hmem : r ∈ sortStage sb (filterStage (some tag)
        (searchStage fuse records query)) ↔
        r ∈ filterStage (some tag) (searchStage fuse records query) := by
      cases sb <;> simp [sortStage]
    rw [hmem]
    simp only [filterStage]
    exact List.mem_filter
  · decide

/-- C7: for every positive `pageSize`, the returned page is exactly the
first `pageSize` entries of the filtered and sorted result list — in
particular the whole list whenever `pageSize` is at least the total
count — and the exposed total count is the length of the
pre-truncation list. -/
theorem C7_pagination_first_entries (fuse : String → List SearchResult)
    (records : List Item) (query : String) (activeTag : Option String)
    (sb : SortBy) (n : Int) (h : 0 < n) :
    paginatedResults (results fuse records query activeTag sb) n =
      (results fuse records query activeTag sb).take n.toNat ∧
    (totalCount (results fuse records query activeTag sb) ≤ n.toNat →
      paginatedResults (results fuse records query activeTag sb) n =
        results fuse records query activeTag sb) ∧
    totalCount (results fuse records query activeTag sb) =
      (results fuse records query activeTag sb).length := by
  refine ⟨?_, ?_, rfl⟩
  · rw [paginatedResults, if_neg (by omega)]
  · intro hle
    rw [paginatedResults, if_neg (by omega)]
    exact List.take_of_length_le hle

/-- Witness for C7 at `pageSize = 3` on the empty-query pipeline over
the sample records. -/
theorem C7_witness :
    paginatedResults (results emptyFuse SAMPLE_DATA "" none SortBy.relevance) 3 =
      (results emptyFuse SAMPLE_DATA "" none SortBy.relevance).take
        ((3 : Int).toNat) ∧
    (totalCount (results emptyFuse SAMPLE_DATA "" none SortBy.relevance) ≤
        (3 : Int).toNat →
      paginatedResults (results emptyFuse SAMPLE_DATA "" none SortBy.relevance) 3 =
        results emptyFuse SAMPLE_DATA "" none SortBy.relevance) ∧
    totalCount (results emptyFuse SAMPLE_DATA "" none SortBy.relevance) =
      (results emptyFuse SAMPLE_DATA "" none SortBy.relevance).length :=
  C7_pagination_first_entries emptyFuse SAMPLE_DATA "" none SortBy.relevance 3
    (by decide)

/-- Witness for C10 (amended) at the text `abcdefghij` with the index
pairs `(7, 9)` and `(1, 3)`. -/
theorem C10_witness :
    partsText (highlightText "abcdefghij".data [(7, 9), (1, 3)]) =
      "abcdefghij".data ∧
    highlightParts (highlightText "abcdefghij".data [(7, 9), (1, 3)]) =
      (sortRanges (closeRanges [(7, 9), (1, 3)])).map
        fun r => jsSlice "abcdefghij".data r.1 r.2 :=
  C10_concat_exact "abcdefghij".data [(7, 9), (1, 3)] (by decide) (by decide)

/-! ### Date sorting (C5) -/

theorem mergeSort_pair {α : Type} (a b : α) (le : α → α → Bool) :
    List.mergeSort [a, b] le = if le a b then [a, b] else [b, a] := by
  simp [List.mergeSort, List.merge]

/-- C5 counterexample: two records with the same date, where the one
later in the collection (`tieB`) matches the query strictly better.
Under `sortMode = newest` the date-tied pair comes back in relevance
order `[102, 101]`, not in the collection order `[101, 102]` — the sort
is stable with respect to the relevance-ordered list it sorts, not with
respect to the original collection. -/
theorem C5_counterexample :
    tieA.date = tieB.date ∧
    (results (specFuse [tieA, tieB]) [tieA, tieB] "abcd" none SortBy.newest).map
      (fun r => r.item.id) = [102, 101] ∧
    ([102, 101] : List Nat) ≠ [101, 102] := by
  have ht : fieldCost "abcd" "xabc" = some (1 / 4 : ℚ) := by
    rw [fieldCost, if_pos (by decide),
      show fieldDist "abcd" "xabc" = 1 from by decide,
      show "abcd".length = 4 from rfl]
    norm_num
  have ht' : fieldCost "abcd" "abcd" = some (0 : ℚ) := by
    rw [fieldCost, if_pos (by decide),
      show fieldDist "abcd" "abcd" = 0 from by decide,
      show "abcd".length = 4 from rfl]
    norm_num
  have hd : fieldCost "abcd" "" = none := by
    rw [fieldCost, if_neg (by decide)]
  have hg : tagsCost "abcd" ([] : List String) = none := rfl
  have hA : recordScore "abcd" tieA = some (11 / 20 : ℚ) := by
    simp only [recordScore, tieA, ht, hg, hd, Option.getD_some, Option.getD_none]
    rw [if_neg (by simp)]
    norm_num [min_def]
  have hB : recordScore "abcd" tieB = some (2 / 5 : ℚ) := by
    simp only [recordScore, tieB, ht', hg, hd, Option.getD_some, Option.getD_none]
    rw [if_neg (by simp)]
    norm_num [min_def]
  have hspec : specFuse [tieA, tieB] "abcd" =
      [⟨tieB, none, some (2 / 5 : ℚ)⟩, ⟨tieA, none, some (11 / 20 : ℚ)⟩] := by
    rw [specFuse,
      show ([tieA, tieB].filterMap fun it =>
          (recordScore "abcd" it).map fun s => (it, s)) =
        [(tieA, (11 / 20 : ℚ)), (tieB, (2 / 5 : ℚ))] from by
        simp [hA, hB],
      mergeSort_pair]
    rw [show (decide (((tieA, (11 / 20 : ℚ))).2 ≤ ((tieB, (2 / 5 : ℚ))).2) : Bool) =
      false from decide_eq_false (by norm_num)]
    simp
  refine ⟨rfl, ?_, by decide⟩
  rw [results, searchStage, if_pos (by decide), hspec]
  simp only [filterStage, sortStage]
  rw [mergeSort_pair]
  rw [show newestLE ⟨tieB, none, some (2 / 5 : ℚ)⟩
      ⟨tieA, none, some (11 / 20 : ℚ)⟩ = true from by decide]
  simp [tieA, tieB]

/-- C5 (amended): under `sortMode = newest` (resp. `oldest`) the result
list is sorted by date descending (resp. ascending), and a date tie is
broken by the pair's relative order in the list being sorted — the
filtered search-stage output (stable sort): that is the original
collection order when the query is blank, but the relevance order of
the search library when a query is active. -/
theorem C5_date_sort_stable (fuse : String → List SearchResult)
    (records : List Item) (query : String) (activeTag : Option String)
    (a b : SearchResult) :
    ((results fuse records query activeTag SortBy.newest).Pairwise fun x y =>
      dateKey y.item.date ≤ dateKey x.item.date) ∧
    ((results fuse records query activeTag SortBy.oldest).Pairwise fun x y =>
      dateKey x.item.date ≤ dateKey y.item.date) ∧
    (List.Sublist [a, b] (filterStage activeTag (searchStage fuse records query)) →
      dateKey a.item.date = dateKey b.item.date →
      List.Sublist [a, b] (results fuse records query activeTag SortBy.newest) ∧
      List.Sublist [a, b] (results fuse records query activeTag SortBy.oldest)) := by
  have trans_n : ∀ (x y z : SearchResult),
      newestLE x y → newestLE y z → newestLE x z := by
    intro x y z
    simp only [newestLE, decide_eq_true_eq]
    omega
  have total_n : ∀ (x y : SearchResult), newestLE x y || newestLE y x := by
    intro x y
    simp only [newestLE, Bool.or_eq_true, decide_eq_true_eq]
    omega
  have trans_o : ∀ (x y z : SearchResult),
      oldestLE x y → oldestLE y z → oldestLE x z := by
    intro x y z
    simp only [oldestLE, decide_eq_true_eq]
    omega
  have total_o : ∀ (x y : SearchResult), oldestLE x y || oldestLE y x := by
    intro x y
    simp only [oldestLE, Bool.or_eq_true, decide_eq_true_eq]
    omega
  refine ⟨?_, ?_, ?_⟩
  · exact (List.sorted_mergeSort trans_n total_n
      (filterStage activeTag (searchStage fuse records query))).imp
      (by simp [newestLE])
  · exact (List.sorted_mergeSort trans_o total_o
      (filterStage activeTag (searchStage fuse records query))).imp
      (by simp [oldestLE])
  · intro hsub hdate
    constructor
    · exact List.pair_sublist_mergeSort trans_n total_n
        (by simp [newestLE, hdate]) hsub
    · exact List.pair_sublist_mergeSort trans_o total_o
        (by simp [oldestLE, hdate]) hsub

/-- Witness for C5 (amended): the stability part applied to two
passthrough results with equal dates on the blank-query pipeline. -/
theorem C5_witness :
    List.Sublist [passthrough tieA, passthrough tieB]
      (results emptyFuse [tieA, tieB] "" none SortBy.newest) ∧
    List.Sublist [passthrough tieA, passthrough tieB]
      (results emptyFuse [tieA, tieB] "" none SortBy.oldest) :=
  (C5_date_sort_stable emptyFuse [tieA, tieB] "" none (passthrough tieA)
    (passthrough tieB)).2.2 (by decide) (by decide)

/-! ### Suggestion lemmas -/

theorem foldl_guard_filter {α β : Type} (p : β → Bool) (f : α → β → α) :
    ∀ (l : List β) (acc : α),
      l.foldl (fun a x => if p x then f a x else a) acc =
        (l.filter p).foldl f acc := by
  intro l
  induction l with
  | nil => intro acc; rfl
  | cons x xs ih =>
      intro acc
      by_cases hp : p x
      · simp [List.filter_cons, hp, ih]
      · simp [List.filter_cons, hp, ih]

theorem dedupFirstGo_congr :
    ∀ (l : List String) (s1 s2 : List String),
      (∀ a, a ∈ s1 ↔ a ∈ s2) →
      dedupFirstGo s1 l = dedupFirstGo s2 l := by
  intro l
  induction l with
  | nil => intro s1 s2 _; rfl
  | cons x xs ih =>
      intro s1 s2 hs
      rw [dedupFirstGo, dedupFirstGo]
      by_cases hx : x ∈ s1
      · rw [if_pos hx, if_pos ((hs x).1 hx)]
        exact ih s1 s2 hs
      · rw [if_neg hx, if_neg (fun h => hx ((hs x).2 h))]
        refine congrArg _ (ih _ _ fun a => ?_)
        simp only [List.mem_cons]
        exact or_congr Iff.rfl (hs a)

theorem foldl_insertTok :
    ∀ (l : List String) (acc : List String),
      l.foldl insertTok acc = acc ++ dedupFirstGo acc l := by
  intro l
  induction l with
  | nil => intro acc; simp [dedupFirstGo]
  | cons x xs ih =>
      intro acc
      rw [List.foldl_cons, dedupFirstGo, insertTok]
      by_cases hx : x ∈ acc
      · rw [if_pos hx, if_pos hx, ih]
      · rw [if_neg hx, if_neg hx, ih]
        rw [dedupFirstGo_congr xs (acc ++ [x]) (x :: acc) fun a => by
          simp only [List.mem_append, List.mem_singleton, List.mem_cons]
          tauto]
        simp

theorem suggTokens_foldl (value : String) :
    ∀ (records : List Item) (acc : List String),
      records.foldl
        (fun acc it =>
          let acc1 := (jsSplitWs it.title).foldl
            (fun a w => if includesCI w value then insertTok a w else a) acc
          it.tags.foldl
            (fun a tg => if includesCI tg value then insertTok a tg else a) acc1)
        acc =
      (matchStream records value).foldl insertTok acc := by
  intro records
  induction records with
  | nil => intro acc; rfl
  | cons it rest ih =>
      intro acc
      have hstream : matchStream (it :: rest) value =
          ((jsSplitWs it.title ++ it.tags).filter fun t => includesCI t value) ++
            matchStream rest value := by
        simp [matchStream, List.flatMap_cons]
      rw [List.foldl_cons, ih, hstream, List.foldl_append]
      congr 1
      show it.tags.foldl
          (fun a tg => if includesCI tg value then insertTok a tg else a)
          ((jsSplitWs it.title).foldl
            (fun a w => if includesCI w value then insertTok a w else a) acc) =
        ((jsSplitWs it.title ++ it.tags).filter fun t =>
          includesCI t value).foldl insertTok acc
      rw [foldl_guard_filter, foldl_guard_filter, List.filter_append,
        List.foldl_append]

theorem suggTokens_eq_dedupFirst (records : List Item) (value : String) :
    suggTokens records value = dedupFirst (matchStream records value) := by
  rw [suggTokens, suggTokens_foldl value records [], foldl_insertTok, dedupFirst]
  rfl

theorem mem_dedupFirstGo :
    ∀ (l seen : List String) (a : String), a ∈ dedupFirstGo seen l → a ∉ seen := by
  intro l
  induction l with
  | nil => intro seen a ha; simp [dedupFirstGo] at ha
  | cons x xs ih =>
      intro seen a ha
      rw [dedupFirstGo] at ha
      by_cases hx : x ∈ seen
      · rw [if_pos hx] at ha
        exact ih seen a ha
      · rw [if_neg hx] at ha
        rcases List.mem_cons.1 ha with rfl | ha
        · exact hx
        · intro hs
          exact ih (x :: seen) a ha (List.mem_cons_of_mem _ hs)

theorem nodup_dedupFirstGo :
    ∀ (l seen : List String), (dedupFirstGo seen l).Nodup := by
  intro l
  induction l with
  | nil => intro seen; simp [dedupFirstGo]
  | cons x xs ih =>
      intro seen
      rw [dedupFirstGo]
      by_cases hx : x ∈ seen
      · rw [if_pos hx]; exact ih seen
      · rw [if_neg hx]
        refine List.nodup_cons.2 ⟨?_, ih (x :: seen)⟩
        intro hmem
        exact mem_dedupFirstGo xs (x :: seen) x hmem (List.mem_cons_self _ _)

/-- C8: for every partial query of at least 2 characters after trimming,
the suggestion path returns up to 8 distinct tokens — the title words
and tags whose lowercase form contains the lowercase query as a
substring (plain containment, not fuzzy), deduplicated keeping first
occurrences in collection encounter order (title words before tags) and
truncated to 8; for shorter queries it returns no suggestions. -/
theorem C8_suggestion_tokens (records : List Item) (value : String) :
    (suggestions records value).Nodup ∧
    (suggestions records value).length ≤ 8 ∧
    suggestions records value =
      (if 2 ≤ (jsTrim value).length then
        (dedupFirst (matchStream records value)).take 8
      else []) := by
  have heq : suggestions records value =
      (if 2 ≤ (jsTrim value).length then
        (dedupFirst (matchStream records value)).take 8
      else []) := by
    rw [suggestions, handleQueryChange]
    by_cases hlen : (jsTrim value).length < 2
    · rw [if_pos hlen, if_neg (by omega)]
    · rw [if_neg hlen, if_pos (by omega)]
      show (suggTokens records value).take 8 = _
      rw [suggTokens_eq_dedupFirst]
  refine ⟨?_, ?_, heq⟩
  · rw [heq]
    split
    · exact List.Nodup.sublist (List.take_sublist _ _)
        (nodup_dedupFirstGo (matchStream records value) [])
    · exact List.nodup_nil
  · rw [heq]
    split
    · exact le_trans (Nat.le_of_eq (List.length_take _ _)) (Nat.min_le_left _ _)
    · simp

/-! ### The approximate-match claim (C1) -/

theorem mem_results_specFuse (records : List Item) (query : String) (it : Item)
    (hq : jsTrim query ≠ "") (hmem : it ∈ records)
    (hs : (recordScore query it).isSome = true) :
    it ∈ (results (specFuse records) records query none SortBy.relevance).map
      (fun r => r.item) := by
  rw [results, searchStage, if_pos hq]
  simp only [filterStage, sortStage, specFuse]
  obtain ⟨s, hs'⟩ := Option.isSome_iff_exists.1 hs
  have h1 : (it, s) ∈ (records.filterMap fun rec =>
      (recordScore query rec).map fun c => (rec, c)) :=
    List.mem_filterMap.2 ⟨it, hmem, by rw [hs']; rfl⟩
  have h2 : (it, s) ∈ (records.filterMap fun rec =>
      (recordScore query rec).map fun c => (rec, c)).mergeSort
        (fun a b => a.2 ≤ b.2) :=
    List.mem_mergeSort.2 h1
  exact List.mem_map.2 ⟨⟨it, none, some s⟩, List.mem_map.2 ⟨(it, s), h2, rfl⟩, rfl⟩

set_option maxRecDepth 100000 in
/-- C1: with the configured threshold 0.36, the approximate matcher
still accepts the query `javscript` (one character removed from
`javascript`) against the title `Beginner's Guide to JavaScript`, and
the record with that title appears in the search results for that
query over the sample collection. -/
theorem C1_javscript_still_matches :
    fieldMatches "javscript" "Beginner\'s Guide to JavaScript" = true ∧
    jsRecord ∈ (results (specFuse SAMPLE_DATA) SAMPLE_DATA "javscript" none
      SortBy.relevance).map (fun r => r.item) := by
  refine ⟨by decide, ?_⟩
  exact mem_results_specFuse SAMPLE_DATA "javscript" jsRecord (by decide)
    (by decide) (by decide)

/-! ### The frame claim (C9) -/

theorem getD_append_lt (h : Heap) (v : ArrVal) (r : Nat) (d : ArrVal)
    (hr : r < h.length) : (h ++ [v]).getD r d = h.getD r d := by
  simp only [List.getD_eq_getElem?_getD]
  rw [List.getElem?_append_left hr]

theorem getD_concat_self (h : Heap) (v : ArrVal) (d : ArrVal) :
    (h ++ [v]).getD h.length d = v := by
  simp only [List.getD_eq_getElem?_getD]
  rw [List.getElem?_concat_length]
  rfl

theorem getD_set_lt (h : Heap) (i r : Nat) (v d : ArrVal) (hne : i ≠ r) :
    (h.set i v).getD r d = h.getD r d := by
  simp only [List.getD_eq_getElem?_getD]
  rw [List.getElem?_set_ne hne]

theorem getD_set_self (h : Heap) (i : Nat) (v d : ArrVal) (hi : i < h.length) :
    (h.set i v).getD i d = v := by
  simp only [List.getD_eq_getElem?_getD]
  rw [List.getElem?_set_self hi]
  rfl

/-- C9: the heap-of-arrays pipeline never changes the cell holding the
record collection — the core only reads records, even though the
in-place sort overwrites the (freshly allocated) working array — and
the result cell it returns holds exactly the value computed by the pure
pipeline on the collection snapshot. -/
theorem C9_records_never_mutated (fuse : String → List SearchResult)
    (query : String) (activeTag : Option String) (sb : SortBy) (h : Heap)
    (recordsRef : Nat) (href : recordsRef < h.length) :
    (resultsHeap fuse query activeTag sb h recordsRef).1.getD recordsRef
      (ArrVal.items []) = h.getD recordsRef (ArrVal.items []) ∧
    getRes (resultsHeap fuse query activeTag sb h recordsRef).1
      (resultsHeap fuse query activeTag sb h recordsRef).2 =
      results fuse (getItems h recordsRef) query activeTag sb := by
  simp only [resultsHeap]
  set v1 : ArrVal := if jsTrim query ≠ "" then ArrVal.res (fuse query)
    else ArrVal.res ((getItems h recordsRef).map passthrough) with hv1
  have hstep1 : (if jsTrim query ≠ "" then alloc h (ArrVal.res (fuse query))
      else alloc h (ArrVal.res ((getItems h recordsRef).map passthrough))) =
      (h ++ [v1], h.length) := by
    rw [hv1]
    split <;> rfl
  rw [hstep1]
  have hres1 : getRes (h ++ [v1]) h.length =
      searchStage fuse (getItems h recordsRef) query := by
    rw [getRes, getD_concat_self, hv1, searchStage]
    by_cases hq : jsTrim query ≠ ""
    · rw [if_pos hq, if_pos hq]
    · rw [if_neg hq, if_neg hq]
  have hcell1 : (h ++ [v1]).getD recordsRef (ArrVal.items []) =
      h.getD recordsRef (ArrVal.items []) := getD_append_lt h v1 recordsRef _ href
  cases activeTag with
  | none =>
      simp only [filterStage]
      cases sb with
      | relevance =>
          simp only [sortStage]
          exact ⟨hcell1, hres1⟩
      | newest =>
          simp only [sortStage]
          refine ⟨?_, ?_⟩
          · rw [getD_set_lt _ _ _ _ _ (by simp; omega), hcell1]
          · rw [getRes, getD_set_self _ _ _ _ (by simp), hres1]
            simp only [results, filterStage, sortStage]
      | oldest =>
          simp only [sortStage]
          refine ⟨?_, ?_⟩
          · rw [getD_set_lt _ _ _ _ _ (by simp; omega), hcell1]
          · rw [getRes, getD_set_self _ _ _ _ (by simp), hres1]
            simp only [results, filterStage, sortStage]
  | some tag =>
      simp only [alloc]
      have hres2 : getRes ((h ++ [v1]) ++ [ArrVal.res ((getRes (h ++ [v1])
          h.length).filter fun r => r.item.tags.contains tag)])
          (h ++ [v1]).length =
          filterStage (some tag) (searchStage fuse (getItems h recordsRef)
            query) := by
        rw [getRes, getD_concat_self, hres1]
        rfl
      have hcell2 : ((h ++ [v1]) ++ [ArrVal.res ((getRes (h ++ [v1])
          h.length).filter fun r => r.item.tags.contains tag)]).getD recordsRef
          (ArrVal.items []) = h.getD recordsRef (ArrVal.items []) := by
        rw [getD_append_lt _ _ _ _ (by simp; omega), hcell1]
      cases sb with
      | relevance =>
          simp only [sortStage]
          exact ⟨hcell2, hres2⟩
      | newest =>
          simp only [sortStage]
          refine ⟨?_, ?_⟩
          · rw [getD_set_lt _ _ _ _ _ (by simp; omega), hcell2]
          · rw [getRes, getD_set_self _ _ _ _ (by simp), hres2]
            simp only [results, sortStage]
      | oldest =>
          simp only [sortStage]
          refine ⟨?_, ?_⟩
          · rw [getD_set_lt _ _ _ _ _ (by simp; omega), hcell2]
          · rw [getRes, getD_set_self _ _ _ _ (by simp), hres2]
            simp only [results, sortStage]

/-- Witness for C9 on a one-cell heap holding the sample collection,
with an active tag, a date sort, and a blank query. -/
theorem C9_witness :
    (resultsHeap emptyFuse "" (some "guide") SortBy.newest
      [ArrVal.items SAMPLE_DATA] 0).1.getD 0 (ArrVal.items []) =
      [ArrVal.items SAMPLE_DATA].getD 0 (ArrVal.items []) ∧
    getRes (resultsHeap emptyFuse "" (some "guide") SortBy.newest
      [ArrVal.items SAMPLE_DATA] 0).1
      (resultsHeap emptyFuse "" (some "guide") SortBy.newest
        [ArrVal.items SAMPLE_DATA] 0).2 =
      results emptyFuse (getItems [ArrVal.items SAMPLE_DATA] 0) ""
        (some "guide") SortBy.newest :=
  C9_records_never_mutated emptyFuse "" (some "guide") SortBy.newest
    [ArrVal.items SAMPLE_DATA] 0 (by decide)

end SearchInk
